import Mathlib

/-!
Verification of the subtitle parsing / playback core of the Read-Subtitle
repository.  JavaScript strings are modelled as `List Char`; numbers that
carry time values are modelled as `ℚ` (all timestamps in scope have finite
decimal form); JavaScript `NaN` is modelled as `none` in `Option ℚ`
(every order comparison against `NaN` is false, matching `Option`-aware
comparison helpers below).
-/

namespace ReadSubtitle

/-- Whitespace set used by JavaScript `String.prototype.trim` (the common
members; exotic Unicode space separators do not occur in the inputs the
claims quantify over). -/
def isJsWs (c : Char) : Bool :=
  c = ' ' || c = '\t' || c = '\n' || c = '\r' || c = '\x0b' || c = '\x0c' ||
  c = ' ' || c = '﻿'

/-- Model of `line.trim()`: drop leading and trailing whitespace. -/
def trimChars (l : List Char) : List Char :=
  ((l.dropWhile isJsWs).reverse.dropWhile isJsWs).reverse

/-- Model of JavaScript `str.split(sep)` for a single-character separator:
always returns at least one (possibly empty) field. -/
def splitOnChar (sep : Char) : List Char → List (List Char)
  | [] => [[]]
  | c :: rest =>
    if c = sep then [] :: splitOnChar sep rest
    else
      match splitOnChar sep rest with
      | g :: gs => (c :: g) :: gs
      | [] => [[c]]

/-- Model of `content.replace(/\r\n/g, '\n')`. -/
def replaceCRLF : List Char → List Char
  | '\r' :: '\n' :: rest => '\n' :: replaceCRLF rest
  | c :: rest => c :: replaceCRLF rest
  | [] => []

/-- Model of JavaScript `str.replace(',', '.')`: only the first comma is
replaced. -/
def replaceFirstComma : List Char → List Char
  | [] => []
  | c :: rest => if c = ',' then '.' :: rest else c :: replaceFirstComma rest

/-- Model of `line.startsWith(p)`. -/
def listStartsWith : List Char → List Char → Bool
  | [], _ => true
  | _, [] => false
  | p :: ps, c :: cs => p = c && listStartsWith ps cs

/-- Numeric value of a digit string (most significant first). -/
def digitsToNat (l : List Char) : Nat :=
  l.foldl (fun n c => 10 * n + (c.toNat - 48)) 0

/-- Mantissa part of JavaScript `parseFloat`: integer digits, an optional
fractional part, returning the value and the unconsumed rest; `none` when no
digit is present. -/
def parseFloatCore (l : List Char) : Option (ℚ × List Char) :=
  let ip := l.takeWhile Char.isDigit
  let r1 := l.dropWhile Char.isDigit
  match r1 with
  | '.' :: r2 =>
    let fp := r2.takeWhile Char.isDigit
    let r3 := r2.dropWhile Char.isDigit
    if ip = [] && fp = [] then none
    else some ((digitsToNat ip : ℚ) + (digitsToNat fp : ℚ) / (10 ^ fp.length), r3)
  | _ => if ip = [] then none else some ((digitsToNat ip : ℚ), r1)

/-- Optional exponent suffix of `parseFloat`: `e`/`E`, optional sign, digits;
ignored when no digit follows the marker, as in JavaScript. -/
def applyExponent (x : ℚ) (r : List Char) : ℚ :=
  match r with
  | 'e' :: rest | 'E' :: rest =>
    let (sgn, rest') : Bool × List Char :=
      match rest with
      | '-' :: r2 => (true, r2)
      | '+' :: r2 => (false, r2)
      | _ => (false, rest)
    let ds := rest'.takeWhile Char.isDigit
    if ds = [] then x
    else if sgn then x / (10 ^ digitsToNat ds) else x * (10 ^ digitsToNat ds)
  | _ => x

/-- Model of JavaScript `parseFloat` on the string values arising here:
leading whitespace is skipped, an optional sign is read, then a decimal
mantissa with optional exponent; `none` models `NaN`.  The `Infinity`
literal is not representable in `ℚ` and is treated as a parse failure. -/
def jsParseFloat (l : List Char) : Option ℚ :=
  let l1 := l.dropWhile isJsWs
  match l1 with
  | '-' :: r => (parseFloatCore r).map (fun p => -(applyExponent p.1 p.2))
  | '+' :: r => (parseFloatCore r).map (fun p => applyExponent p.1 p.2)
  | _ => (parseFloatCore l1).map (fun p => applyExponent p.1 p.2)

mutual

/-- Model of `text.replace(/\x7b.*?\x7d/g, '')`: remove every leftmost,
non-greedy brace-delimited span.  `stripGo` buffers the characters consumed
since an opening brace (in reverse) so that an unclosed trailing brace is
restored verbatim, exactly as the regex leaves it unmatched. -/
def stripBraces : List Char → List Char
  | [] => []
  | '{' :: rest => stripGo rest ['{']
  | c :: rest => c :: stripBraces rest

/-- Helper of `stripBraces`: scanning for the closing brace. -/
def stripGo : List Char → List Char → List Char
  | [], buf => buf.reverse
  | '}' :: rest, _ => stripBraces rest
  | c :: rest, buf => stripGo rest (c :: buf)

end

/-- One parsed subtitle cue, the shape pushed by `parseSubtitles` in
`server.ts` (`{ start, end, text }`); `end` is a Lean keyword, hence
`end_`. -/
structure Cue where
  start : List Char
  end_ : List Char
  text : List Char
  deriving DecidableEq, Repr

/-- Matcher for one timestamp group of the timecode pattern
`\d{2}:\d{2}:\d{2}[,.]\d{3}` at the head of the input; returns the matched
twelve characters and the rest. -/
def takeTimestamp : List Char → Option (List Char × List Char)
  | h1 :: h2 :: ':' :: m1 :: m2 :: ':' :: s1 :: s2 :: sep :: x1 :: x2 :: x3 :: rest =>
    if h1.isDigit && h2.isDigit && m1.isDigit && m2.isDigit && s1.isDigit &&
       s2.isDigit && (sep = ',' || sep = '.') && x1.isDigit && x2.isDigit && x3.isDigit
    then some ([h1, h2, ':', m1, m2, ':', s1, s2, sep, x1, x2, x3], rest)
    else none
  | _ => none

/-- Attempt to match the full timecode pattern
`(\d{2}:\d{2}:\d{2}[,.]\d{3}) --> (\d{2}:\d{2}:\d{2}[,.]\d{3})` anchored at
the head of the input, returning the two capture groups. -/
def tryTimeMatchAt (l : List Char) : Option (List Char × List Char) :=
  match takeTimestamp l with
  | none => none
  | some (g1, r1) =>
    match r1 with
    | ' ' :: '-' :: '-' :: '>' :: ' ' :: r2 =>
      match takeTimestamp r2 with
      | some (g2, _) => some (g1, g2)
      | none => none
    | _ => none

/-- Model of `line.match(timeRegex)`: leftmost match of the (unanchored)
timecode pattern, returning the two capture groups. -/
def findTimeMatch : List Char → Option (List Char × List Char)
  | [] => none
  | c :: rest =>
    match tryTimeMatchAt (c :: rest) with
    | some m => some m
    | none => findTimeMatch rest

/-- One step of the `.srt`/`.vtt` line loop of `parseSubtitles`
(`server.ts`): state is the emitted cues so far plus the open cue, if any
(`current.start` is truthy exactly when a cue is open, since capture groups
are never empty). -/
def srtStep (st : List Cue × Option Cue) (line : List Char) : List Cue × Option Cue :=
  match findTimeMatch line with
  | some (g1, g2) =>
    (st.1, some { start := replaceFirstComma g1, end_ := replaceFirstComma g2, text := [] })
  | none =>
    match st.2 with
    | some cur =>
      if trimChars line = [] then (st.1 ++ [cur], none)
      else
        (st.1, some { cur with
          text := cur.text ++ (if cur.text = [] then [] else [' ']) ++ trimChars line })
    | none => st

/-- The `.srt`/`.vtt` branch of `parseSubtitles` on an already-split line
list, including the end-of-input flush of a still-open cue. -/
def parseSrtLines (lines : List (List Char)) : List Cue :=
  match lines.foldl srtStep ([], none) with
  | (acc, some cur) => acc ++ [cur]
  | (acc, none) => acc

/-- One step of the `.ass` branch of `parseSubtitles`: a `Dialogue:` line
with at least 10 comma-separated fields pushes a cue whose start and end are
fields 1 and 2 verbatim and whose text is the fields from index 9 rejoined
with commas, stripped of `\x7b...\x7d` spans, then trimmed. -/
def assStep (acc : List Cue) (line : List Char) : List Cue :=
  if listStartsWith "Dialogue:".toList line then
    let parts := splitOnChar ',' line
    if 10 ≤ parts.length then
      acc ++ [{ start := parts.getD 1 [], end_ := parts.getD 2 [],
                text := trimChars (stripBraces (List.intercalate [','] (parts.drop 9))) }]
    else acc
  else acc

/-- The `.ass` branch of `parseSubtitles` on an already-split line list. -/
def parseAssLines (lines : List (List Char)) : List Cue :=
  lines.foldl assStep []

/-- Line splitting shared by both branches:
`content.replace(/\r\n/g, '\n').split('\n')`. -/
def linesOf (content : List Char) : List (List Char) :=
  splitOnChar '\n' (replaceCRLF content)

/-- Model of `parseSubtitles(content, extension)` from `server.ts`. -/
def parseSubtitles (content : List Char) (extension : List Char) : List Cue :=
  if extension = ".srt".toList || extension = ".vtt".toList then
    parseSrtLines (linesOf content)
  else if extension = ".ass".toList then
    parseAssLines (linesOf content)
  else []

/-- Model of `timeToSeconds` from the reader component: split on `:`,
destructure the first three fields, `parseFloat` each and combine; a missing
field or failed parse is JavaScript `NaN`, modelled as `none`. -/
def timeToSeconds (l : List Char) : Option ℚ :=
  match splitOnChar ':' l with
  | h :: m :: s :: _ =>
    match jsParseFloat h, jsParseFloat m, jsParseFloat s with
    | some a, some b, some c => some (a * 3600 + b * 60 + c)
    | _, _, _ => none
  | _ => none

/-- Model of `totalDuration` in the reader: seconds value of the last cue's
end timestamp, `0` for an empty sequence (`none` models a `NaN` duration). -/
def totalDuration (cues : List Cue) : Option ℚ :=
  match cues.getLast? with
  | some c => timeToSeconds c.end_
  | none => some 0

/-- Playback-relevant state of the reader component: `isPlaying`,
`currentTime` and `activeLineIndex`. -/
structure PlaybackState where
  playing : Bool
  elapsed : ℚ
  activeIndex : Option Nat
  deriving DecidableEq, Repr

/-- The containment test of the active-cue resolver:
`currentTime >= start && currentTime <= end` with both timestamps converted
by `timeToSeconds`; false whenever either conversion is `NaN`. -/
def cueContains (t : ℚ) (c : Cue) : Bool :=
  match timeToSeconds c.start, timeToSeconds c.end_ with
  | some a, some b => decide (a ≤ t) && decide (t ≤ b)
  | _, _ => false

/-- Model of the active-cue resolver effect: `findIndex` over the cue list
with the containment test; when it returns `-1` the previous index is kept,
otherwise the found (first matching) index is stored. -/
def resolveActive (cues : List Cue) (t : ℚ) (active : Option Nat) : Option Nat :=
  match cues.findIdx? (cueContains t) with
  | some i => some i
  | none => active

/-- Model of the seek handler (the range input's `onChange`): the parsed
value is stored into `currentTime` directly; no clamping appears in the
code (the `[0, max]` range is enforced only by the DOM control's `min`/`max`
attributes). -/
def seek (s : PlaybackState) (t : ℚ) : PlaybackState :=
  { s with elapsed := t }

/-- Model of one fire of the playback interval while playing: `e` is the
recomputed wall-clock elapsed value; when it reaches the total duration the
clock stops and clamps, otherwise the value is stored unchanged.  When the
duration is `NaN` (`none`) the comparison is false and the clock never
stops, as in the code. -/
def tick (cues : List Cue) (s : PlaybackState) (e : ℚ) : PlaybackState :=
  match totalDuration cues with
  | some d => if d ≤ e then { s with playing := false, elapsed := d }
              else { s with elapsed := e }
  | none => { s with elapsed := e }

/-- Model of `handleJumpToLine`: reads `parsed_json[index].start`, adds the
`0.01` offset and stores the result, and sets the active index directly.
`none` models the out-of-range access error and the `NaN` elapsed value of a
non-numeric timestamp, neither of which is representable in the rational
state.  The handler additionally clears the word selection and triggers a
line translation; those act on the translation state, modelled separately by
`handleTranslateReq`. -/
def handleJumpToLine (cues : List Cue) (s : PlaybackState) (i : Nat) :
    Option PlaybackState :=
  match cues.get? i with
  | none => none
  | some c =>
    match timeToSeconds c.start with
    | none => none
    | some st => some { s with elapsed := st + 1 / 100, activeIndex := some i }

/-- Model of `resetPlayback`. -/
def resetPlayback (_s : PlaybackState) : PlaybackState :=
  { playing := false, elapsed := 0, activeIndex := none }

/-- Translation-relevant state of the reader component: the per-index cache
(`Record<number, string>`) and the single line-level in-flight flag. -/
structure TransState where
  translations : Nat → Option (List Char)
  isTranslating : Bool

/-- JavaScript truthiness of a cache lookup: an absent entry and a cached
empty string are both falsy. -/
def truthy : Option (List Char) → Bool
  | some t => t ≠ []
  | none => false

/-- Model of the synchronous prefix of `handleTranslate(index)`, up to the
point where the outbound request is issued: returns the new state and
whether an outbound translation call was triggered.  The guards are, in
order: no data loaded, truthy cache entry or in-flight flag, whitespace-only
text; `none` models the runtime error of an out-of-range index. -/
def handleTranslateReq (dataOpt : Option (List Cue)) (ts : TransState) (i : Nat) :
    Option (TransState × Bool) :=
  match dataOpt with
  | none => some (ts, false)
  | some cues =>
    if truthy (ts.translations i) || ts.isTranslating then some (ts, false)
    else
      match cues.get? i with
      | none => none
      | some c =>
        if trimChars c.text = [] then some (ts, false)
        else some ({ ts with isTranslating := true }, true)

/-- Completion of a line translation request: the result is cached under the
index and the in-flight flag is cleared (the `finally` block). -/
def handleTranslateDone (ts : TransState) (i : Nat) (result : List Char) : TransState :=
  { translations := fun j => if j = i then some result else ts.translations j,
    isTranslating := false }

/-- Per-line cue contribution of the `.ass` branch, used to state that each
`Dialogue:` line contributes its cue independently. -/
def assLineCue (line : List Char) : Option Cue :=
  if listStartsWith "Dialogue:".toList line then
    let parts := splitOnChar ',' line
    if 10 ≤ parts.length then
      some { start := parts.getD 1 [], end_ := parts.getD 2 [],
             text := trimChars (stripBraces (List.intercalate [','] (parts.drop 9))) }
    else none
  else none

/-! ### Shared concrete data for witnesses and counterexamples -/

/-- The spec's running example sequence: cues `[0, 2]` "Hello" and
`[2.5, 4]` "World". -/
def exCues : List Cue :=
  [{ start := "00:00:00.000".toList, end_ := "00:00:02.000".toList, text := "Hello".toList },
   { start := "00:00:02.500".toList, end_ := "00:00:04.000".toList, text := "World".toList }]

/-- Evaluation of `timeToSeconds` on the concrete timestamps used below. -/
theorem ts_eval_0 : timeToSeconds "00:00:00.000".toList = some 0 := by
  simp [timeToSeconds, splitOnChar, jsParseFloat, parseFloatCore, applyExponent,
    digitsToNat, isJsWs, List.takeWhile, List.dropWhile, List.foldl]

/-- Evaluation of `timeToSeconds "00:00:01.000"`. -/
theorem ts_eval_1 : timeToSeconds "00:00:01.000".toList = some 1 := by
  simp [timeToSeconds, splitOnChar, jsParseFloat, parseFloatCore, applyExponent,
    digitsToNat, isJsWs, List.takeWhile, List.dropWhile, List.foldl]

/-- Evaluation of `timeToSeconds "00:00:02.000"`. -/
theorem ts_eval_2 : timeToSeconds "00:00:02.000".toList = some 2 := by
  simp [timeToSeconds, splitOnChar, jsParseFloat, parseFloatCore, applyExponent,
    digitsToNat, isJsWs, List.takeWhile, List.dropWhile, List.foldl]

/-- Evaluation of `timeToSeconds "00:00:02.500"`. -/
theorem ts_eval_25 : timeToSeconds "00:00:02.500".toList = some (5 / 2) := by
  simp [timeToSeconds, splitOnChar, jsParseFloat, parseFloatCore, applyExponent,
    digitsToNat, isJsWs, List.takeWhile, List.dropWhile, List.foldl]
  norm_num

/-- Evaluation of `timeToSeconds "00:00:04.000"`. -/
theorem ts_eval_4 : timeToSeconds "00:00:04.000".toList = some 4 := by
  simp [timeToSeconds, splitOnChar, jsParseFloat, parseFloatCore, applyExponent,
    digitsToNat, isJsWs, List.takeWhile, List.dropWhile, List.foldl]

/-- Evaluation of `timeToSeconds "00:00:05.000"`. -/
theorem ts_eval_5 : timeToSeconds "00:00:05.000".toList = some 5 := by
  simp [timeToSeconds, splitOnChar, jsParseFloat, parseFloatCore, applyExponent,
    digitsToNat, isJsWs, List.takeWhile, List.dropWhile, List.foldl]

/-- Total duration of the example sequence. -/
theorem exCues_duration : totalDuration exCues = some 4 := by
  have h : totalDuration exCues = timeToSeconds "00:00:04.000".toList := rfl
  rw [h, ts_eval_4]

/-! ### C1: active-cue resolver -/

/-- The resolver's containment test holds exactly when both timestamps
convert to seconds and the converted closed interval contains `t`. -/
theorem cueContains_iff (t : ℚ) (c : Cue) :
    cueContains t c = true ↔
      ∃ a b, timeToSeconds c.start = some a ∧ timeToSeconds c.end_ = some b ∧
        a ≤ t ∧ t ≤ b := by
  unfold cueContains
  cases h1 : timeToSeconds c.start <;> cases h2 : timeToSeconds c.end_ <;> simp

/-- C1: on every change of elapsed time, if at least one cue's converted
`[start, end]` interval (inclusive at both ends) contains `elapsed`, the
resolver stores the index of the first such cue in sequence order; if no
cue's interval contains `elapsed`, the stored active index is left
unchanged. -/
theorem resolver_first_match_or_retains (cues : List Cue) (t : ℚ) (active : Option Nat) :
    ((∀ c ∈ cues, ¬ ∃ a b, timeToSeconds c.start = some a ∧
        timeToSeconds c.end_ = some b ∧ a ≤ t ∧ t ≤ b) →
      resolveActive cues t active = active) ∧
    (∀ i (h : i < cues.length),
      (∃ a b, timeToSeconds (cues.get ⟨i, h⟩).start = some a ∧
        timeToSeconds (cues.get ⟨i, h⟩).end_ = some b ∧ a ≤ t ∧ t ≤ b) →
      (∀ j (hj : j < i),
        ¬ ∃ a b, timeToSeconds (cues.get ⟨j, Nat.lt_trans hj h⟩).start = some a ∧
          timeToSeconds (cues.get ⟨j, Nat.lt_trans hj h⟩).end_ = some b ∧ a ≤ t ∧ t ≤ b) →
      resolveActive cues t active = some i) := by
  constructor
  · intro hnone
    have : cues.findIdx? (cueContains t) = none := by
      rw [List.findIdx?_eq_none_iff]
      intro c hc
      rcases h : cueContains t c with _ | _
      · rfl
      · exact absurd ((cueContains_iff t c).mp h) (hnone c hc)
    simp [resolveActive, this]
  · intro i h hex hfirst
    have : cues.findIdx? (cueContains t) = some i := by
      rw [List.findIdx?_eq_some_iff_getElem]
      refine ⟨h, ?_, ?_⟩
      · simpa [List.get_eq_getElem] using (cueContains_iff t _).mpr hex
      · intro j hj
        intro hcj
        exact hfirst j hj ((cueContains_iff t _).mp hcj)
    simp [resolveActive, this]

/-- Witness for C1: in the example sequence, elapsed `2.2` lies in the gap
and the previous index `0` is retained; elapsed `1` lies inside cue `0` and
the resolver reports `0` even starting from no active index. -/
theorem resolver_first_match_or_retains_witness :
    resolveActive exCues (11 / 5) (some 0) = some 0 ∧
    resolveActive exCues 1 none = some 0 := by
  constructor
  · apply (resolver_first_match_or_retains exCues (11 / 5) (some 0)).1
    intro c hc hex
    obtain ⟨a, b, ha, hb, hat, htb⟩ := hex
    simp only [exCues, List.mem_cons, List.not_mem_nil, or_false] at hc
    rcases hc with rfl | rfl
    · obtain rfl : (0 : ℚ) = a := Option.some.inj (ts_eval_0.symm.trans ha)
      obtain rfl : (2 : ℚ) = b := Option.some.inj (ts_eval_2.symm.trans hb)
      norm_num at htb
    · obtain rfl : (5 / 2 : ℚ) = a := Option.some.inj (ts_eval_25.symm.trans ha)
      norm_num at hat
  · apply (resolver_first_match_or_retains exCues 1 none).2 0 (by decide)
    · exact ⟨0, 2, ts_eval_0, ts_eval_2, by norm_num, by norm_num⟩
    · intro j hj
      exact absurd hj (Nat.not_lt_zero j)

/-! ### C5: seek and clamping -/

/-- C5 counterexample: the seek handler stores the value verbatim; with the
example sequence (total duration `4`) seeking to `5` leaves elapsed at `5`,
outside `[0, totalDuration]`, so the claimed clamping does not happen. -/
theorem seek_not_clamped_counterexample :
    totalDuration exCues = some 4 ∧
    (seek { playing := false, elapsed := 0, activeIndex := none } 5).elapsed = 5 ∧
    ¬ ((seek { playing := false, elapsed := 0, activeIndex := none } 5).elapsed ≤ 4) := by
  refine ⟨exCues_duration, rfl, by norm_num [seek]⟩

/-- C5 amended: `seek(t)` stores `t` into elapsed verbatim, with no clamping
in the code (the range control's DOM attributes are the only bound); hence
elapsed stays in `[0, totalDuration]` exactly when the incoming `t` already
lies in that interval. -/
theorem seek_sets_elapsed_verbatim (cues : List Cue) (s : PlaybackState) (t d : ℚ)
    (_hd : totalDuration cues = some d) (h0 : 0 ≤ t) (h1 : t ≤ d) :
    (seek s t).elapsed = t ∧ 0 ≤ (seek s t).elapsed ∧ (seek s t).elapsed ≤ d :=
  ⟨rfl, h0, h1⟩

/-- Witness for the amended C5: seeking to `3` in the example sequence. -/
theorem seek_sets_elapsed_verbatim_witness :
    (seek { playing := false, elapsed := 0, activeIndex := none } 3).elapsed = 3 ∧
    (0 : ℚ) ≤ (seek { playing := false, elapsed := 0, activeIndex := none } 3).elapsed ∧
    (seek { playing := false, elapsed := 0, activeIndex := none } 3).elapsed ≤ 4 :=
  seek_sets_elapsed_verbatim exCues _ 3 4 exCues_duration (by norm_num) (by norm_num)

/-! ### C6: tick stops and clamps at total duration -/

/-- C6: while playing, a tick whose recomputed elapsed value reaches or
exceeds the total duration stops the clock and stores exactly the total
duration; no tick can leave the clock playing with elapsed strictly above
the total duration. -/
theorem tick_stops_and_clamps (cues : List Cue) (s : PlaybackState) (e d : ℚ)
    (_hplay : s.playing = true) (hd : totalDuration cues = some d) (he : d ≤ e) :
    (tick cues s e).playing = false ∧ (tick cues s e).elapsed = d ∧
    ∀ e' : ℚ, ¬ ((tick cues s e').playing = true ∧ d < (tick cues s e').elapsed) := by
  refine ⟨?_, ?_, ?_⟩
  · simp [tick, hd, he]
  · simp [tick, hd, he]
  · intro e' ⟨hp, hlt⟩
    by_cases h : d ≤ e'
    · simp [tick, hd, h] at hp
    · simp [tick, hd, h] at hlt
      exact absurd (le_of_lt hlt) h

/-- Witness for C6: a tick at `5` with the example sequence (duration `4`)
stops the clock at exactly `4`. -/
theorem tick_stops_and_clamps_witness :
    (tick exCues { playing := true, elapsed := 3, activeIndex := some 1 } 5).playing = false ∧
    (tick exCues { playing := true, elapsed := 3, activeIndex := some 1 } 5).elapsed = 4 ∧
    ∀ e' : ℚ, ¬ ((tick exCues { playing := true, elapsed := 3, activeIndex := some 1 } e').playing = true ∧
      (4 : ℚ) < (tick exCues { playing := true, elapsed := 3, activeIndex := some 1 } e').elapsed) :=
  tick_stops_and_clamps exCues _ 5 4 rfl exCues_duration (by norm_num)

/-! ### C8: jump-to-cue -/

/-- C8: jumping to a valid cue index stores the cue's start in seconds plus
the strictly positive offset `0.01` into elapsed, and sets the active index
to that cue directly, regardless of any coincidence between this start and
the previous cue's end. -/
theorem jump_sets_offset_and_active (cues : List Cue) (s : PlaybackState) (i : Nat)
    (c : Cue) (st : ℚ) (hc : cues.get? i = some c)
    (hst : timeToSeconds c.start = some st) :
    handleJumpToLine cues s i =
      some { s with elapsed := st + 1 / 100, activeIndex := some i } ∧
    (0 : ℚ) < 1 / 100 := by
  constructor
  · unfold handleJumpToLine
    rw [hc]
    dsimp only
    rw [hst]
  · norm_num

/-- Witness for C8: jumping to cue `1` of the example sequence (whose start
`2.5` coincides region-wise with the previous cue's end boundary `2`) yields
elapsed `2.5 + 0.01` and active index `1`. -/
theorem jump_sets_offset_and_active_witness :
    handleJumpToLine exCues { playing := false, elapsed := 0, activeIndex := some 0 } 1 =
      some { playing := false, elapsed := 5 / 2 + 1 / 100, activeIndex := some 1 } :=
  (jump_sets_offset_and_active exCues _ 1
    { start := "00:00:02.500".toList, end_ := "00:00:04.000".toList, text := "World".toList }
    (5 / 2) (by decide) ts_eval_25).1

/-! ### C7: line-translation request coalescing -/

/-- Outbound-call count of two back-to-back synchronous `handleTranslate`
invocations for the same index (the second runs on the state left by the
first, before any resolution); `none` models a runtime error. -/
def twoCallsOutbound (cues : List Cue) (ts : TransState) (i : Nat) : Option Nat :=
  match handleTranslateReq (some cues) ts i with
  | none => none
  | some (ts1, b1) =>
    match handleTranslateReq (some cues) ts1 i with
    | none => none
    | some (_, b2) => some ((if b1 then 1 else 0) + (if b2 then 1 else 0))

/-- A loaded document whose only cue has whitespace-only text. -/
def wsCues : List Cue :=
  [{ start := "00:00:01.000".toList, end_ := "00:00:02.000".toList, text := "  ".toList }]

/-- A loaded document whose only cue has the text `Hi`. -/
def hiCues : List Cue :=
  [{ start := "00:00:01.000".toList, end_ := "00:00:02.000".toList, text := "Hi".toList }]

/-- Fresh translation state: empty cache, no request in flight. -/
def freshTrans : TransState :=
  { translations := fun _ => none, isTranslating := false }

/-- Translation state whose cache holds the empty string for index `0`. -/
def cachedEmptyTrans : TransState :=
  { translations := fun j => if j = 0 then some [] else none, isTranslating := false }

/-- C7 counterexample: (i) for a cue whose text is whitespace-only, two
back-to-back calls trigger zero outbound calls, not exactly one; (ii) a
cached translation entry does not always make a call a no-op: a cached
empty string is falsy in the guard `translations[index]`, so the call
issues an outbound request anyway. -/
theorem translate_coalescing_counterexample :
    twoCallsOutbound wsCues freshTrans 0 = some 0 ∧
    handleTranslateReq (some hiCues) cachedEmptyTrans 0 =
      some ({ cachedEmptyTrans with isTranslating := true }, true) := by
  constructor
  · rfl
  · rfl

/-- C7 amended: provided the cue's text is non-empty after trimming, no
request is in flight, and the cached entry for the index is absent or empty
(a JavaScript-falsy entry), two back-to-back calls for the index trigger
exactly one outbound translation call; a call made while the in-flight flag
is set is a no-op, and a call made when a non-empty cached translation
exists for the index is a no-op. -/
theorem translate_coalescing (cues : List Cue) (ts : TransState) (i : Nat) (c : Cue)
    (hc : cues[i]? = some c) (htext : trimChars c.text ≠ [])
    (hcache : truthy (ts.translations i) = false)
    (hflag : ts.isTranslating = false) :
    twoCallsOutbound cues ts i = some 1 ∧
    (∀ ts' : TransState, ts'.isTranslating = true →
      handleTranslateReq (some cues) ts' i = some (ts', false)) ∧
    (∀ ts' : TransState, truthy (ts'.translations i) = true →
      handleTranslateReq (some cues) ts' i = some (ts', false)) := by
  refine ⟨?_, ?_, ?_⟩
  · have h1 : handleTranslateReq (some cues) ts i =
        some ({ ts with isTranslating := true }, true) := by
      unfold handleTranslateReq
      rw [hcache, hflag]
      simp [hc, htext]
    have h2 : handleTranslateReq (some cues) { ts with isTranslating := true } i =
        some ({ ts with isTranslating := true }, false) := by
      unfold handleTranslateReq
      simp
    simp [twoCallsOutbound, h1, h2]
  · intro ts' h
    unfold handleTranslateReq
    simp [h]
  · intro ts' h
    unfold handleTranslateReq
    simp [h]

/-- Witness for the amended C7: on a fresh state with the `Hi` cue, two
back-to-back calls issue exactly one outbound request. -/
theorem translate_coalescing_witness :
    twoCallsOutbound hiCues freshTrans 0 = some 1 :=
  (translate_coalescing hiCues freshTrans 0
    { start := "00:00:01.000".toList, end_ := "00:00:02.000".toList, text := "Hi".toList }
    rfl (by decide) rfl rfl).1

/-! ### Invariants of the sequential-block line loop -/

/-- One step of the line loop preserves a cue property that holds of every
freshly opened cue (for this line) and is preserved by text appends (for
this line). -/
theorem srtStep_inv (P : Cue → Prop) (acc : List Cue) (cur : Option Cue) (line : List Char)
    (hopen : ∀ g1 g2, findTimeMatch line = some (g1, g2) →
      P { start := replaceFirstComma g1, end_ := replaceFirstComma g2, text := [] })
    (happ : ∀ c : Cue, P c → trimChars line ≠ [] →
      P { c with text := c.text ++ (if c.text = [] then [] else [' ']) ++ trimChars line })
    (hacc : ∀ c ∈ acc, P c) (hcur : ∀ c, cur = some c → P c) :
    (∀ c ∈ (srtStep (acc, cur) line).1, P c) ∧
    (∀ c, (srtStep (acc, cur) line).2 = some c → P c) := by
  unfold srtStep
  rcases hm : findTimeMatch line with _ | ⟨g1, g2⟩
  · dsimp only
    rcases cur with _ | c
    · dsimp only
      exact ⟨hacc, by simp⟩
    · dsimp only
      by_cases ht : trimChars line = []
      · rw [if_pos ht]
        refine ⟨?_, by simp⟩
        intro c' hc'
        rcases List.mem_append.mp hc' with h1 | h1
        · exact hacc c' h1
        · rw [List.mem_singleton] at h1
          rw [h1]
          exact hcur c rfl
      · rw [if_neg ht]
        refine ⟨hacc, ?_⟩
        intro c' hc'
        injection hc' with hc'
        subst hc'
        exact happ c (hcur c rfl) ht
  · dsimp only
    refine ⟨hacc, ?_⟩
    intro c' hc'
    injection hc' with hc'
    subst hc'
    exact hopen g1 g2 hm

/-- Invariant preservation through the whole line loop. -/
theorem srt_foldl_inv (P : Cue → Prop) :
    ∀ (lines : List (List Char)),
      (∀ line ∈ lines, ∀ g1 g2, findTimeMatch line = some (g1, g2) →
        P { start := replaceFirstComma g1, end_ := replaceFirstComma g2, text := [] }) →
      (∀ line ∈ lines, ∀ c : Cue, P c → trimChars line ≠ [] →
        P { c with text := c.text ++ (if c.text = [] then [] else [' ']) ++ trimChars line }) →
      ∀ (acc : List Cue) (cur : Option Cue),
        (∀ c ∈ acc, P c) → (∀ c, cur = some c → P c) →
        (∀ c ∈ (lines.foldl srtStep (acc, cur)).1, P c) ∧
        (∀ c, (lines.foldl srtStep (acc, cur)).2 = some c → P c) := by
  intro lines
  induction lines with
  | nil => exact fun _ _ acc cur hacc hcur => ⟨hacc, hcur⟩
  | cons line rest ih =>
    intro hopen happ acc cur hacc hcur
    rw [List.foldl_cons]
    have hstep := srtStep_inv P acc cur line
      (hopen line (List.mem_cons_self _ _)) (happ line (List.mem_cons_self _ _)) hacc hcur
    exact ih (fun l hl => hopen l (List.mem_cons_of_mem _ hl))
      (fun l hl => happ l (List.mem_cons_of_mem _ hl))
      (srtStep (acc, cur) line).1 (srtStep (acc, cur) line).2 hstep.1 hstep.2

/-- Every cue emitted by the sequential-block branch satisfies any property
that holds of freshly opened cues and is preserved by text appends. -/
theorem parseSrtLines_inv (P : Cue → Prop) (lines : List (List Char))
    (hopen : ∀ line ∈ lines, ∀ g1 g2, findTimeMatch line = some (g1, g2) →
      P { start := replaceFirstComma g1, end_ := replaceFirstComma g2, text := [] })
    (happ : ∀ line ∈ lines, ∀ c : Cue, P c → trimChars line ≠ [] →
      P { c with text := c.text ++ (if c.text = [] then [] else [' ']) ++ trimChars line }) :
    ∀ c ∈ parseSrtLines lines, P c := by
  have h := srt_foldl_inv P lines hopen happ [] none (by simp) (by simp)
  unfold parseSrtLines
  rcases hfold : lines.foldl srtStep ([], none) with ⟨acc, cur⟩
  rw [hfold] at h
  rcases cur with _ | c
  · exact h.1
  · intro c' hc'
    rcases List.mem_append.mp hc' with h1 | h1
    · exact h.1 c' h1
    · rw [List.mem_singleton] at h1
      rw [h1]
      exact h.2 c rfl

/-- Dispatch of `parseSubtitles` to the sequential-block branch for the two
extensions that share it. -/
theorem parseSubtitles_srt_vtt (content ext : List Char)
    (hext : ext = ".srt".toList ∨ ext = ".vtt".toList) :
    parseSubtitles content ext = parseSrtLines (linesOf content) := by
  rcases hext with h | h <;> simp [parseSubtitles, h]

/-! ### Trimmed-text machinery for C2 -/

/-- The first character, if any, is not JavaScript whitespace. -/
def headNotWs : List Char → Prop
  | [] => True
  | c :: _ => isJsWs c = false

/-- Dropping leading whitespace leaves no leading whitespace. -/
theorem headNotWs_dropWhile (l : List Char) : headNotWs (l.dropWhile isJsWs) := by
  induction l with
  | nil => trivial
  | cons c rest ih =>
    by_cases h : isJsWs c = true
    · rw [List.dropWhile_cons_of_pos h]
      exact ih
    · rw [List.dropWhile_cons_of_neg h]
      exact eq_false_of_ne_true h

/-- A list with no leading whitespace is unchanged by `dropWhile`. -/
theorem dropWhile_eq_self_of_headNotWs {l : List Char} (h : headNotWs l) :
    l.dropWhile isJsWs = l := by
  cases l with
  | nil => rfl
  | cons c rest =>
    have h' : isJsWs c = false := h
    exact List.dropWhile_cons_of_neg (by simp [h'])

/-- A prefix of a list with no leading whitespace has no leading
whitespace. -/
theorem headNotWs_of_append {a b : List Char} (h : headNotWs (a ++ b)) : headNotWs a := by
  cases a with
  | nil => trivial
  | cons c rest => exact h

/-- A nonempty list with no leading whitespace keeps that property when
extended on the right. -/
theorem headNotWs_append_left {a : List Char} (b : List Char) (hne : a ≠ [])
    (h : headNotWs a) : headNotWs (a ++ b) := by
  cases a with
  | nil => exact absurd rfl hne
  | cons c rest => exact h

/-- A list with no leading or trailing whitespace is its own trim. -/
theorem trim_eq_self {l : List Char} (h1 : headNotWs l) (h2 : headNotWs l.reverse) :
    trimChars l = l := by
  unfold trimChars
  rw [dropWhile_eq_self_of_headNotWs h1, dropWhile_eq_self_of_headNotWs h2,
    List.reverse_reverse]

/-- The trimmed form of any list has no leading whitespace. -/
theorem headNotWs_trimChars (l : List Char) : headNotWs (trimChars l) := by
  unfold trimChars
  obtain ⟨s, hs⟩ :=
    List.dropWhile_suffix (l := (l.dropWhile isJsWs).reverse) (p := isJsWs)
  have key : ((l.dropWhile isJsWs).reverse.dropWhile isJsWs).reverse ++ s.reverse =
      l.dropWhile isJsWs := by
    rw [← List.reverse_append, hs, List.reverse_reverse]
  have hh := headNotWs_dropWhile l
  rw [← key] at hh
  exact headNotWs_of_append hh

/-- The reverse of the trimmed form of any list has no leading whitespace
(that is, the trimmed form has no trailing whitespace). -/
theorem headNotWs_trimChars_reverse (l : List Char) : headNotWs (trimChars l).reverse := by
  unfold trimChars
  rw [List.reverse_reverse]
  exact headNotWs_dropWhile _

/-- Trimming is idempotent. -/
theorem trim_trim (l : List Char) : trimChars (trimChars l) = trimChars l :=
  trim_eq_self (headNotWs_trimChars l) (headNotWs_trimChars_reverse l)

/-! ### C2: emitted text, corrected -/

/-- An input whose only block is a timecode line immediately closed by a
blank line. -/
def emptyBlockInput : List Char := "00:00:01,000 --> 00:00:02,000\n\n".toList

/-- C2 counterexample: a block whose accumulated text is empty is emitted,
not discarded — the parse of `emptyBlockInput` as `.srt` contains exactly
one cue and its text is empty (so also empty after trimming). -/
theorem empty_text_cue_emitted :
    parseSubtitles emptyBlockInput ".srt".toList =
      [{ start := "00:00:01.000".toList, end_ := "00:00:02.000".toList, text := [] }] ∧
    trimChars ([] : List Char) = [] := by
  exact ⟨by decide, rfl⟩

/-- C2 amended: every cue emitted by the sequential-block parser has text
equal to its own trim (no leading or trailing whitespace), but the text may
be empty: empty-text blocks are emitted, not discarded. -/
theorem srt_vtt_text_trimmed (content ext : List Char)
    (hext : ext = ".srt".toList ∨ ext = ".vtt".toList) :
    ∀ c ∈ parseSubtitles content ext, trimChars c.text = c.text := by
  rw [parseSubtitles_srt_vtt content ext hext]
  have hinv := parseSrtLines_inv
    (fun c => headNotWs c.text ∧ headNotWs c.text.reverse) (linesOf content)
    ?_ ?_
  · intro c hc
    exact trim_eq_self (hinv c hc).1 (hinv c hc).2
  · intro line _ g1 g2 _
    exact ⟨trivial, trivial⟩
  · intro line _ c hc ht
    by_cases hct : c.text = []
    · rw [hct]
      simp only [if_pos rfl, List.nil_append]
      exact ⟨headNotWs_trimChars line, headNotWs_trimChars_reverse line⟩
    · rw [if_neg hct]
      refine ⟨?_, ?_⟩
      · have h1 : headNotWs (c.text ++ ([' '] ++ trimChars line)) :=
          headNotWs_append_left _ hct hc.1
        rw [← List.append_assoc] at h1
        exact h1
      · show headNotWs ((c.text ++ [' '] ++ trimChars line).reverse)
        rw [List.reverse_append]
        exact headNotWs_append_left _
          (fun hnil => ht (List.reverse_eq_nil_iff.mp hnil))
          (headNotWs_trimChars_reverse line)

/-- A two-text-line block input used as witness material. -/
def goodSrtInput : List Char := "1\n00:00:01,000 --> 00:00:02,000\nHello\nworld\n".toList

/-- Witness for the amended C2: the cue parsed from `goodSrtInput` has text
`Hello world`, which is its own trim. -/
theorem srt_vtt_text_trimmed_witness :
    trimChars "Hello world".toList = "Hello world".toList :=
  srt_vtt_text_trimmed goodSrtInput ".srt".toList (Or.inl rfl)
    { start := "00:00:01.000".toList, end_ := "00:00:02.000".toList,
      text := "Hello world".toList } (by decide)

/-! ### C10: canonical timestamp shape -/

/-- The canonical timestamp shape `HH:MM:SS.mmm`: two digits, colon, two
digits, colon, two digits, period, three digits. -/
def isCanonicalTs (l : List Char) : Bool :=
  match l with
  | [a, b, ':', c, d, ':', e, f, '.', g, h, i] =>
    a.isDigit && b.isDigit && c.isDigit && d.isDigit && e.isDigit && f.isDigit &&
    g.isDigit && h.isDigit && i.isDigit
  | _ => false

/-- A digit character is not a comma. -/
theorem digit_ne_comma {c : Char} (h : c.isDigit = true) : c ≠ ',' := by
  intro heq
  rw [heq] at h
  exact absurd h (by decide)

/-- A successful timestamp-group match, after the comma-to-period
normalization, is in canonical shape. -/
theorem takeTimestamp_canonical {l g r : List Char}
    (h : takeTimestamp l = some (g, r)) :
    isCanonicalTs (replaceFirstComma g) = true := by
  unfold takeTimestamp at h
  split at h
  · rename_i h1 h2 m1 m2 s1 s2 sep x1 x2 x3 rest
    split at h
    · rename_i hcond
      rw [Option.some.injEq, Prod.mk.injEq] at h
      obtain ⟨hg, _⟩ := h
      subst hg
      simp only [Bool.and_eq_true] at hcond
      obtain ⟨⟨⟨⟨⟨⟨⟨⟨⟨ha, hb⟩, hc⟩, hd⟩, he⟩, hf⟩, hsep⟩, hx1⟩, hx2⟩, hx3⟩ := hcond
      rw [Bool.or_eq_true, decide_eq_true_eq, decide_eq_true_eq] at hsep
      rcases hsep with hsep | hsep
      · subst hsep
        simp [replaceFirstComma, digit_ne_comma ha, digit_ne_comma hb,
          digit_ne_comma hc, digit_ne_comma hd, digit_ne_comma he,
          digit_ne_comma hf, isCanonicalTs, ha, hb, hc, hd, he, hf,
          hx1, hx2, hx3, (by decide : (':' : Char) ≠ ',')]
      · subst hsep
        simp [replaceFirstComma, digit_ne_comma ha, digit_ne_comma hb,
          digit_ne_comma hc, digit_ne_comma hd, digit_ne_comma he,
          digit_ne_comma hf, digit_ne_comma hx1, digit_ne_comma hx2,
          digit_ne_comma hx3, isCanonicalTs, ha, hb, hc, hd, he, hf,
          hx1, hx2, hx3, (by decide : (':' : Char) ≠ ','),
          (by decide : ('.' : Char) ≠ ',')]
    · exact absurd h (by simp)
  · exact absurd h (by simp)

/-- Both capture groups of a successful full timecode match are canonical
after normalization. -/
theorem tryTimeMatchAt_canonical {l g1 g2 : List Char}
    (h : tryTimeMatchAt l = some (g1, g2)) :
    isCanonicalTs (replaceFirstComma g1) = true ∧
    isCanonicalTs (replaceFirstComma g2) = true := by
  unfold tryTimeMatchAt at h
  split at h
  · exact absurd h (by simp)
  · rename_i ga ra heq1
    split at h
    · rename_i r2
      split at h
      · rename_i gb rb heq2
        rw [Option.some.injEq, Prod.mk.injEq] at h
        obtain ⟨hg1, hg2⟩ := h
        subst hg1
        subst hg2
        exact ⟨takeTimestamp_canonical heq1, takeTimestamp_canonical heq2⟩
      · exact absurd h (by simp)
    · exact absurd h (by simp)

/-- Both capture groups of the leftmost timecode match of a line are
canonical after normalization. -/
theorem findTimeMatch_canonical : ∀ {l g1 g2 : List Char},
    findTimeMatch l = some (g1, g2) →
    isCanonicalTs (replaceFirstComma g1) = true ∧
    isCanonicalTs (replaceFirstComma g2) = true := by
  intro l
  induction l with
  | nil => intro g1 g2 h; exact absurd h (by simp [findTimeMatch])
  | cons c rest ih =>
    intro g1 g2 h
    unfold findTimeMatch at h
    split at h
    · rename_i m heq
      rw [Option.some.injEq] at h
      subst h
      exact tryTimeMatchAt_canonical heq
    · exact ih h

/-- C10: every cue emitted by the sequential-block parser has start and end
strings of exactly the canonical form `HH:MM:SS.mmm`, because a cue is
opened only by a timecode match whose captures have that shape up to the
separator, and the comma separator is normalized to a period. -/
theorem srt_vtt_timestamps_canonical (content ext : List Char)
    (hext : ext = ".srt".toList ∨ ext = ".vtt".toList) :
    ∀ c ∈ parseSubtitles content ext,
      isCanonicalTs c.start = true ∧ isCanonicalTs c.end_ = true := by
  rw [parseSubtitles_srt_vtt content ext hext]
  apply parseSrtLines_inv
  · intro line _ g1 g2 hm
    exact findTimeMatch_canonical hm
  · intro line _ c hc _
    exact hc

/-- Witness for C10: the cue parsed from `goodSrtInput` has canonical start
and end timestamps. -/
theorem srt_vtt_timestamps_canonical_witness :
    isCanonicalTs "00:00:01.000".toList = true ∧
    isCanonicalTs "00:00:02.000".toList = true :=
  srt_vtt_timestamps_canonical goodSrtInput ".srt".toList (Or.inl rfl)
    { start := "00:00:01.000".toList, end_ := "00:00:02.000".toList,
      text := "Hello world".toList } (by decide)

/-! ### C3: start and end ordering, corrected -/

/-- Boolean comparison of two optional seconds values; false whenever either
side is `NaN` (`none`), matching JavaScript float comparisons. -/
def secLEb : Option ℚ → Option ℚ → Bool
  | some a, some b => decide (a ≤ b)
  | _, _ => false

/-- A line is timecode-ordered when its leftmost timecode match (if any) has
normalized start not after normalized end, in seconds. -/
def lineTimecodeOrdered (line : List Char) : Bool :=
  match findTimeMatch line with
  | some (g1, g2) =>
    secLEb (timeToSeconds (replaceFirstComma g1)) (timeToSeconds (replaceFirstComma g2))
  | none => true

/-- A line is dialogue-ordered when, if it is an accepted `Dialogue:` line,
its second field is not after its third field, in seconds. -/
def lineDialogueOrdered (line : List Char) : Bool :=
  if listStartsWith "Dialogue:".toList line then
    if 10 ≤ (splitOnChar ',' line).length then
      secLEb (timeToSeconds ((splitOnChar ',' line).getD 1 []))
        (timeToSeconds ((splitOnChar ',' line).getD 2 []))
    else true
  else true

/-- Invariant preservation through the `.ass` line loop. -/
theorem ass_foldl_inv (P : Cue → Prop) :
    ∀ (lines : List (List Char)),
      (∀ line ∈ lines, listStartsWith "Dialogue:".toList line = true →
        10 ≤ (splitOnChar ',' line).length →
        P { start := (splitOnChar ',' line).getD 1 [],
            end_ := (splitOnChar ',' line).getD 2 [],
            text := trimChars (stripBraces
              (List.intercalate [','] ((splitOnChar ',' line).drop 9))) }) →
      ∀ acc : List Cue, (∀ c ∈ acc, P c) →
        ∀ c ∈ lines.foldl assStep acc, P c := by
  intro lines
  induction lines with
  | nil => exact fun _ acc hacc => hacc
  | cons line rest ih =>
    intro hline acc hacc
    rw [List.foldl_cons]
    apply ih (fun l hl => hline l (List.mem_cons_of_mem _ hl))
    intro c hc
    unfold assStep at hc
    by_cases hd : listStartsWith "Dialogue:".toList line = true
    · rw [if_pos hd] at hc
      dsimp only at hc
      by_cases hlen : 10 ≤ (splitOnChar ',' line).length
      · rw [if_pos hlen] at hc
        rcases List.mem_append.mp hc with hm | hm
        · exact hacc c hm
        · rw [List.mem_singleton] at hm
          rw [hm]
          exact hline line (List.mem_cons_self _ _) hd hlen
      · rw [if_neg hlen] at hc
        exact hacc c hc
    · rw [if_neg hd] at hc
      exact hacc c hc

/-- Dispatch of `parseSubtitles` to the `.ass` branch. -/
theorem parseSubtitles_ass (content : List Char) :
    parseSubtitles content ".ass".toList = parseAssLines (linesOf content) := rfl

/-- An input whose only timecode line has start after end. -/
def badOrderInput : List Char := "00:00:05,000 --> 00:00:01,000\nHi".toList

/-- C3 counterexample: the parser performs no ordering validation — the
reversed timecode line is emitted verbatim, producing a cue whose start
(`5` seconds) is strictly after its end (`1` second). -/
theorem start_gt_end_emitted :
    parseSubtitles badOrderInput ".srt".toList =
      [{ start := "00:00:05.000".toList, end_ := "00:00:01.000".toList,
         text := "Hi".toList }] ∧
    timeToSeconds "00:00:05.000".toList = some 5 ∧
    timeToSeconds "00:00:01.000".toList = some 1 ∧
    ¬ ((5 : ℚ) ≤ 1) :=
  ⟨by decide, ts_eval_5, ts_eval_1, by norm_num⟩

/-- C3 amended: the parser emits timestamps verbatim and enforces no
ordering, so `start <= end` is not guaranteed; it does hold for every
emitted cue whenever every timecode match (for `.srt`/`.vtt`) and every
accepted `Dialogue:` line (for `.ass`) of the input already satisfies it in
seconds.  (Only this direction holds: a disordered block can be overwritten
by a later timecode line and never emitted, so ordered output does not imply
ordered input.) -/
theorem start_le_end_of_ordered_input (content ext : List Char)
    (hsrt : ∀ line ∈ linesOf content, lineTimecodeOrdered line = true)
    (hass : ∀ line ∈ linesOf content, lineDialogueOrdered line = true) :
    ∀ c ∈ parseSubtitles content ext,
      secLEb (timeToSeconds c.start) (timeToSeconds c.end_) = true := by
  by_cases h1 : ext = ".srt".toList ∨ ext = ".vtt".toList
  · rw [parseSubtitles_srt_vtt content ext h1]
    apply parseSrtLines_inv
    · intro line hl g1 g2 hm
      have ht := hsrt line hl
      unfold lineTimecodeOrdered at ht
      rw [hm] at ht
      exact ht
    · intro line _ c hc _
      exact hc
  · by_cases h2 : ext = ".ass".toList
    · subst h2
      rw [parseSubtitles_ass]
      unfold parseAssLines
      refine ass_foldl_inv
        (fun c => secLEb (timeToSeconds c.start) (timeToSeconds c.end_) = true)
        (linesOf content) ?_ [] (by simp)
      intro line hl hd hlen
      have ht := hass line hl
      unfold lineDialogueOrdered at ht
      rw [if_pos hd, if_pos hlen] at ht
      exact ht
    · rw [not_or] at h1
      have hp : parseSubtitles content ext = [] := by
        unfold parseSubtitles
        rw [if_neg (fun hcond => by
          rw [Bool.or_eq_true, decide_eq_true_eq, decide_eq_true_eq] at hcond
          exact hcond.elim h1.1 h1.2)]
        rw [if_neg h2]
      rw [hp]
      intro c hc
      exact absurd hc (List.not_mem_nil c)

/-- Evaluation of the ordering test on the witness timecode line. -/
theorem lineTimecodeOrdered_good :
    lineTimecodeOrdered "00:00:01,000 --> 00:00:02,000".toList = true := by
  unfold lineTimecodeOrdered
  rw [show findTimeMatch "00:00:01,000 --> 00:00:02,000".toList =
      some ("00:00:01,000".toList, "00:00:02,000".toList) from by decide]
  show secLEb (timeToSeconds "00:00:01.000".toList)
    (timeToSeconds "00:00:02.000".toList) = true
  rw [ts_eval_1, ts_eval_2]
  show decide ((1 : ℚ) ≤ 2) = true
  rw [decide_eq_true_eq]
  norm_num

/-- Witness for the amended C3: an ordered timecode input yields a cue with
ordered converted timestamps. -/
theorem start_le_end_of_ordered_input_witness :
    secLEb (timeToSeconds "00:00:01.000".toList)
      (timeToSeconds "00:00:02.000".toList) = true := by
  have hlines : linesOf "00:00:01,000 --> 00:00:02,000\nHi".toList =
      ["00:00:01,000 --> 00:00:02,000".toList, "Hi".toList] := by decide
  refine start_le_end_of_ordered_input "00:00:01,000 --> 00:00:02,000\nHi".toList
    ".srt".toList ?_ ?_
    { start := "00:00:01.000".toList, end_ := "00:00:02.000".toList,
      text := "Hi".toList } (by decide)
  · intro line hl
    rw [hlines] at hl
    simp only [List.mem_cons, List.not_mem_nil, or_false] at hl
    rcases hl with rfl | rfl
    · exact lineTimecodeOrdered_good
    · decide
  · intro line hl
    rw [hlines] at hl
    simp only [List.mem_cons, List.not_mem_nil, or_false] at hl
    rcases hl with rfl | rfl
    · decide
    · decide

/-! ### C9: a timecode line discards a still-open cue -/

/-- A run of non-blank lines keeps the emitted-cue list unchanged while a
cue is open: every such line either restarts the open cue (timecode match)
or appends to its text — nothing is emitted. -/
theorem foldl_nonblank_open (mids : List (List Char)) :
    ∀ (acc : List Cue) (c : Cue), (∀ l ∈ mids, trimChars l ≠ []) →
      ∃ c2 : Cue, mids.foldl srtStep (acc, some c) = (acc, some c2) := by
  induction mids with
  | nil => exact fun acc c _ => ⟨c, rfl⟩
  | cons line rest ih =>
    intro acc c hmids
    rw [List.foldl_cons]
    have hstep : ∃ c1 : Cue, srtStep (acc, some c) line = (acc, some c1) := by
      unfold srtStep
      rcases hm : findTimeMatch line with _ | ⟨g1, g2⟩
      · dsimp only
        rw [if_neg (hmids line (List.mem_cons_self _ _))]
        exact ⟨_, rfl⟩
      · exact ⟨_, rfl⟩
    obtain ⟨c1, hc1⟩ := hstep
    rw [hc1]
    exact ih acc c1 (fun l hl => hmids l (List.mem_cons_of_mem _ hl))

/-- A timecode-matching line resets the loop state to a fresh open cue,
regardless of the state before it. -/
theorem srtStep_timecode (acc : List Cue) (cur : Option Cue) (line g1 g2 : List Char)
    (hm : findTimeMatch line = some (g1, g2)) :
    srtStep (acc, cur) line =
      (acc, some { start := replaceFirstComma g1,
                   end_ := replaceFirstComma g2, text := [] }) := by
  unfold srtStep
  rw [hm]

/-- C9: when a timecode line is encountered while a cue is already open and
only non-blank lines lie between the cue-opening line and the new timecode
line, the open cue is discarded without being emitted: the parse equals the
parse of the same input with the earlier timecode line and the intervening
lines removed. -/
theorem timecode_overwrites_open_cue (pre mids rest : List (List Char))
    (tc1 tc2 : List Char) (g1 g2 d1 d2 : List Char)
    (h1 : findTimeMatch tc1 = some (g1, g2))
    (h2 : findTimeMatch tc2 = some (d1, d2))
    (hmids : ∀ l ∈ mids, trimChars l ≠ []) :
    parseSrtLines (pre ++ tc1 :: (mids ++ tc2 :: rest)) =
      parseSrtLines (pre ++ tc2 :: rest) := by
  unfold parseSrtLines
  rw [List.foldl_append, List.foldl_append, List.foldl_cons, List.foldl_cons]
  rcases hpre : pre.foldl srtStep ([], none) with ⟨acc0, cur0⟩
  rw [srtStep_timecode acc0 cur0 tc1 g1 g2 h1]
  rw [List.foldl_append, List.foldl_cons]
  obtain ⟨c2, hmid⟩ := foldl_nonblank_open mids acc0
    { start := replaceFirstComma g1, end_ := replaceFirstComma g2, text := [] } hmids
  rw [hmid]
  rw [srtStep_timecode acc0 (some c2) tc2 d1 d2 h2]
  rw [srtStep_timecode acc0 cur0 tc2 d1 d2 h2]

/-- Witness for C9: a dangling timecode block followed without a blank line
by a second timecode block parses exactly as if the first block were
absent. -/
theorem timecode_overwrites_open_cue_witness :
    parseSrtLines ["00:00:01,000 --> 00:00:02,000".toList, "lost".toList,
      "00:00:03,000 --> 00:00:04,000".toList, "kept".toList, []] =
    parseSrtLines ["00:00:03,000 --> 00:00:04,000".toList, "kept".toList, []] :=
  timecode_overwrites_open_cue [] ["lost".toList]
    ["kept".toList, []]
    "00:00:01,000 --> 00:00:02,000".toList
    "00:00:03,000 --> 00:00:04,000".toList
    "00:00:01,000".toList "00:00:02,000".toList
    "00:00:03,000".toList "00:00:04,000".toList
    (by decide) (by decide) (by decide)

/-! ### C4: `.ass` dialogue parsing -/

/-- The `.ass` step appends exactly the per-line cue contribution. -/
theorem assStep_eq (acc : List Cue) (line : List Char) :
    assStep acc line = acc ++ (assLineCue line).toList := by
  unfold assStep assLineCue
  by_cases h1 : listStartsWith "Dialogue:".toList line = true
  · rw [if_pos h1, if_pos h1]
    dsimp only
    by_cases h2 : 10 ≤ (splitOnChar ',' line).length
    · rw [if_pos h2, if_pos h2]
      rfl
    · rw [if_neg h2, if_neg h2]
      simp
  · rw [if_neg h1, if_neg h1]
    simp

/-- The `.ass` branch is the per-line cue contribution of each input line,
in order. -/
theorem parseAssLines_eq_filterMap (lines : List (List Char)) :
    parseAssLines lines = lines.filterMap assLineCue := by
  have key : ∀ (ls : List (List Char)) (acc : List Cue),
      ls.foldl assStep acc = acc ++ ls.filterMap assLineCue := by
    intro ls
    induction ls with
    | nil => intro acc; simp
    | cons line rest ih =>
      intro acc
      rw [List.foldl_cons, assStep_eq, ih, List.filterMap_cons]
      rcases h : assLineCue line with _ | c
      · simp
      · simp
  have h := key lines []
  simpa [parseAssLines] using h

/-- The spec's example dialogue line. -/
def exampleAssLine : List Char :=
  "Dialogue: 0,0:00:01.00,0:00:03.00,Default,,0,0,0,,\x7b\\i1\x7dHi there\x7b\\i0\x7d".toList

/-- C4: parsing as `.ass` considers each line independently; a `Dialogue:`
line splitting into fewer than 10 comma-separated fields contributes no
cue, one with at least 10 fields contributes a cue with field 1 as start
verbatim, field 2 as end verbatim, and the fields from index 9 rejoined
with commas, stripped of non-greedy brace spans, then trimmed, as text; the
example line yields `0:00:01.00` / `0:00:03.00` / `Hi there`. -/
theorem ass_dialogue_parse (content : List Char) :
    parseSubtitles content ".ass".toList = (linesOf content).filterMap assLineCue ∧
    (∀ line : List Char, listStartsWith "Dialogue:".toList line = true →
      ((splitOnChar ',' line).length < 10 → assLineCue line = none) ∧
      (10 ≤ (splitOnChar ',' line).length →
        assLineCue line = some
          { start := (splitOnChar ',' line).getD 1 [],
            end_ := (splitOnChar ',' line).getD 2 [],
            text := trimChars (stripBraces
              (List.intercalate [','] ((splitOnChar ',' line).drop 9))) })) ∧
    parseSubtitles exampleAssLine ".ass".toList =
      [{ start := "0:00:01.00".toList, end_ := "0:00:03.00".toList,
         text := "Hi there".toList }] := by
  refine ⟨?_, ?_, ?_⟩
  · rw [parseSubtitles_ass, parseAssLines_eq_filterMap]
  · intro line h1
    constructor
    · intro hlt
      unfold assLineCue
      rw [if_pos h1]
      dsimp only
      rw [if_neg (by omega : ¬ 10 ≤ (splitOnChar ',' line).length)]
    · intro hge
      unfold assLineCue
      rw [if_pos h1]
      dsimp only
      rw [if_pos hge]
  · decide

/-- Witness for C4: a `Dialogue:` line with only three fields contributes no
cue. -/
theorem ass_dialogue_parse_witness :
    assLineCue "Dialogue: 0,0:00:01.00,0:00:03.00".toList = none :=
  ((ass_dialogue_parse []).2.1 "Dialogue: 0,0:00:01.00,0:00:03.00".toList
    (by decide)).1 (by decide)

end ReadSubtitle
